import Mathlib

/-
  Verification development for a small CLI coding agent.

  The program under study consists of two TypeScript sources:
  a six-tool agent (read_file, list_directory, search, write_file,
  edit_file, delete_file, dispatched by executeTool and driven by
  a run loop) and a minimal two-tool agent (src/agent.ts).

  The development below is a shallow embedding of that code:
  JavaScript strings are lists of characters, the filesystem seen by
  the single-file tools is a flat map from segment paths to entries,
  the directory tree walked by search is an inductive tree, and the
  host regex engine is an oracle parameter.  Node fs primitives
  (readFileSync, writeFileSync, mkdirSync recursive, statSync,
  unlinkSync, rmdirSync, readdirSync) are modelled as Except-valued
  functions whose thrown errors carry a code and a message, so the
  try/catch structure of each tool handler is explicit.
-/

namespace Cody

set_option maxRecDepth 10000

/-- Characters treated as whitespace by the JavaScript trim calls that the
source uses for path defaulting.  This is the common ASCII subset of the
Unicode whitespace that JavaScript trims; every string that is whitespace-only
in this sense is whitespace-only for JavaScript as well. -/
def isJsWs (c : Char) : Bool :=
  c == ' ' || c == '\t' || c == '\n' || c == '\r' || c == '\x0b' || c == '\x0c'

/-- Model of JavaScript String.prototype.trim restricted to `isJsWs`. -/
def jsTrim (s : String) : String :=
  String.mk (((s.toList.dropWhile isJsWs).reverse.dropWhile isJsWs).reverse)

/-- UTF-8 byte width of one character, as counted by
Buffer.byteLength(content, "utf-8") in the write_file success message. -/
def utf8Bytes (c : Char) : Nat :=
  if c.toNat < 0x80 then 1
  else if c.toNat < 0x800 then 2
  else if c.toNat < 0x10000 then 3
  else 4

/-- UTF-8 byte length of a string given as a character list. -/
def utf8Len (l : List Char) : Nat := (l.map utf8Bytes).sum

/-- Splits a character list at every slash, keeping empty pieces;
used to model the host resolving a path string into segments. -/
def consHead (c : Char) : List (List Char) → List (List Char)
  | [] => [[c]]
  | l :: ls => (c :: l) :: ls

def splitOnSlash : List Char → List (List Char)
  | [] => [[]]
  | '/' :: rest => [] :: splitOnSlash rest
  | c :: rest => consHead c (splitOnSlash rest)

/-- Paths are modelled as lists of segments, relative to the process working
directory.  The tools of the source receive path strings verbatim and hand
them to the host; `parsePath` models the host resolving such a string, with
empty segments and single dots collapsing away. -/
abbrev FsPath := List String

def parsePath (s : String) : FsPath :=
  ((splitOnSlash s.toList).map String.mk).filter (fun seg => seg != "" && seg != ".")

/-- Display form of a segment path, used where the source string-interpolates
the path into a tool message. -/
def pathToString (p : FsPath) : String := String.intercalate "/" p

/-- An entry of the flat filesystem: a regular file with content, or a
directory.  The source additionally distinguishes exotic stat results
(sockets, devices); those are outside this model and noted where the
corresponding source branch appears. -/
inductive FsEntry where
  | file (content : List Char)
  | dir
deriving DecidableEq

/-- Flat filesystem: an association list from segment paths to entries.
The working directory (the empty path) always exists as a directory. -/
structure Fs where
  entries : List (FsPath × FsEntry)
deriving DecidableEq

def Fs.lookup (fs : Fs) (p : FsPath) : Option FsEntry :=
  if p = [] then some .dir
  else (fs.entries.find? (fun e => e.1 == p)).map (·.2)

def Fs.isFile (fs : Fs) (p : FsPath) : Bool :=
  match fs.lookup p with
  | some (.file _) => true
  | _ => false

def Fs.isDirAt (fs : Fs) (p : FsPath) : Bool :=
  match fs.lookup p with
  | some .dir => true
  | _ => false

/-- Names of the immediate children of a directory path. -/
def Fs.childNames (fs : Fs) (p : FsPath) : List String :=
  fs.entries.filterMap (fun e =>
    match e.1.getLast? with
    | some n => if e.1.dropLast == p then some n else none
    | none => none)

def Fs.addDir (fs : Fs) (p : FsPath) : Fs := ⟨(p, .dir) :: fs.entries⟩

def Fs.setFile (fs : Fs) (p : FsPath) (c : List Char) : Fs :=
  ⟨(p, .file c) :: fs.entries.filter (fun e => e.1 != p)⟩

def Fs.remove (fs : Fs) (p : FsPath) : Fs :=
  ⟨fs.entries.filter (fun e => e.1 != p)⟩

/-- A thrown Node error: its code property and its message. -/
structure JsErr where
  code : String
  message : String
deriving DecidableEq

def enoent (syscall : String) (p : FsPath) : JsErr :=
  ⟨"ENOENT", "ENOENT: no such file or directory, " ++ syscall ++ " " ++ pathToString p⟩

def eisdir (syscall : String) (p : FsPath) : JsErr :=
  ⟨"EISDIR", "EISDIR: illegal operation on a directory, " ++ syscall ++ " " ++ pathToString p⟩

def enotempty (p : FsPath) : JsErr :=
  ⟨"ENOTEMPTY", "ENOTEMPTY: directory not empty, rmdir " ++ pathToString p⟩

def enotdir (syscall : String) (p : FsPath) : JsErr :=
  ⟨"ENOTDIR", "ENOTDIR: not a directory, " ++ syscall ++ " " ++ pathToString p⟩

def eperm (syscall : String) (p : FsPath) : JsErr :=
  ⟨"EPERM", "EPERM: operation not permitted, " ++ syscall ++ " " ++ pathToString p⟩

/-- Model of fs.readFileSync(p, "utf-8"). -/
def readFileSyncE (fs : Fs) (p : FsPath) : Except JsErr (List Char) :=
  match fs.lookup p with
  | some (.file c) => .ok c
  | some .dir => .error (eisdir "read" p)
  | none => .error (enoent "open" p)

/-- Model of fs.readdirSync(p). -/
def readdirSyncE (fs : Fs) (p : FsPath) : Except JsErr (List String) :=
  match fs.lookup p with
  | some .dir => .ok (fs.childNames p)
  | some (.file _) => .error (enotdir "scandir" p)
  | none => .error (enoent "scandir" p)

/-- Model of fs.statSync(p). -/
def statSyncE (fs : Fs) (p : FsPath) : Except JsErr FsEntry :=
  match fs.lookup p with
  | some e => .ok e
  | none => .error (enoent "stat" p)

/-- Model of fs.unlinkSync(p). -/
def unlinkSyncE (fs : Fs) (p : FsPath) : Except JsErr Fs :=
  match fs.lookup p with
  | some (.file _) => .ok (fs.remove p)
  | some .dir => .error (eperm "unlink" p)
  | none => .error (enoent "unlink" p)

/-- Model of fs.rmdirSync(p): removes a directory only when it has no
children, otherwise throws ENOTEMPTY. -/
def rmdirSyncE (fs : Fs) (p : FsPath) : Except JsErr Fs :=
  match fs.lookup p with
  | some .dir =>
    if fs.childNames p = [] then .ok (fs.remove p) else .error (enotempty p)
  | some (.file _) => .error (enotdir "rmdir" p)
  | none => .error (enoent "rmdir" p)

/-- Worker for recursive mkdir: walks the remaining segments, creating each
missing directory, and throws when a segment already exists as a file. -/
def mkdirGo (fs : Fs) (pre : FsPath) : List String → Except JsErr Fs
  | [] => .ok fs
  | n :: rest =>
    match fs.lookup (pre ++ [n]) with
    | some (.file _) => .error (enotdir "mkdir" (pre ++ [n]))
    | some .dir => mkdirGo fs (pre ++ [n]) rest
    | none => mkdirGo (fs.addDir (pre ++ [n])) (pre ++ [n]) rest

/-- Model of fs.mkdirSync(p, recursive true). -/
def mkdirRecE (fs : Fs) (p : FsPath) : Except JsErr Fs := mkdirGo fs [] p

/-- Model of fs.writeFileSync(p, c, "utf-8"): fails on an existing directory
or a missing parent directory, otherwise creates or overwrites the file. -/
def writeFileSyncE (fs : Fs) (p : FsPath) (c : List Char) : Except JsErr Fs :=
  match fs.lookup p with
  | some .dir => .error (eisdir "open" p)
  | some (.file _) => .ok (fs.setFile p c)
  | none =>
    if fs.lookup p.dropLast = some FsEntry.dir then .ok (fs.setFile p c)
    else .error (enoent "open" p)

/-- Model of JavaScript String.prototype.indexOf with a string needle, as an
Option instead of the sentinel -1: index of the first occurrence of the
needle `t` in the haystack.  The empty needle is found at index 0. -/
def firstIdx (t : List Char) : List Char → Option Nat
  | [] => if t.isPrefixOf ([] : List Char) then some 0 else none
  | c :: s => if t.isPrefixOf (c :: s) then some 0 else (firstIdx t s).map (· + 1)

/-- Worker for JavaScript String.prototype.split with the nonempty separator
a :: t: leftmost separator occurrences cut the string into pieces. -/
def splitGoNE (a : Char) (t : List Char) : List Char → List (List Char)
  | [] => [[]]
  | c :: s =>
    if (a :: t).isPrefixOf (c :: s) then [] :: splitGoNE a t (s.drop t.length)
    else consHead c (splitGoNE a t s)
termination_by s => s.length
decreasing_by
  · simp only [List.length_drop, List.length_cons]; omega
  · simp only [List.length_cons]; omega

/-- Model of JavaScript String.prototype.split with a string separator: the
empty separator cuts between every pair of adjacent characters. -/
def jsSplit (s t : List Char) : List (List Char) :=
  match t with
  | [] => s.map (fun c => [c])
  | a :: t => splitGoNE a t s

/-- Count of non-overlapping leftmost occurrences of the nonempty needle
a :: t, scanning left to right and skipping over each match. -/
def countOccNE (a : Char) (t : List Char) : List Char → Nat
  | [] => 0
  | c :: s =>
    if (a :: t).isPrefixOf (c :: s) then countOccNE a t (s.drop t.length) + 1
    else countOccNE a t s
termination_by s => s.length
decreasing_by
  · simp only [List.length_drop, List.length_cons]; omega
  · simp only [List.length_cons]; omega

/-- Occurrence count of `t` in `s` as a literal substring: the number of
non-overlapping leftmost matches.  The empty string occurs once at each of
the length+1 positions. -/
def occurrences (s t : List Char) : Nat :=
  match t with
  | [] => s.length + 1
  | a :: t => countOccNE a t s

/-- Model of the GetSubstitution step of JavaScript String.prototype.replace
with a string (non-regex) pattern: in the replacement text, dollar-dollar
yields a dollar, dollar-ampersand yields the matched text, dollar-backquote
(code 96) the text before the match, dollar-quote (code 39) the text after
it; any other dollar sequence is literal. -/
def dollarSub (matched pre post : List Char) : List Char → List Char
  | [] => []
  | ['$'] => ['$']
  | '$' :: d :: r =>
    if d = '$' then '$' :: dollarSub matched pre post r
    else if d = '&' then matched ++ dollarSub matched pre post r
    else if d = Char.ofNat 96 then pre ++ dollarSub matched pre post r
    else if d = Char.ofNat 39 then post ++ dollarSub matched pre post r
    else '$' :: d :: dollarSub matched pre post r
  | c :: r => c :: dollarSub matched pre post r

/-- Model of JavaScript String.prototype.replace with a string pattern:
replaces the first occurrence of `t`, passing the replacement text through
GetSubstitution; without an occurrence the string is returned unchanged. -/
def jsReplaceFirst (s t rep : List Char) : List Char :=
  match firstIdx t s with
  | none => s
  | some i =>
    s.take i ++ dollarSub t (s.take i) (s.drop (i + t.length)) rep ++ s.drop (i + t.length)

/-- The read_file handler of the six-tool agent: returns the file content as
the result string, or a textual error; the catch branch distinguishes
ENOENT from other failures. -/
def readFileTool (fs : Fs) (p : FsPath) : String × Fs :=
  match readFileSyncE fs p with
  | .ok c => (String.mk c, fs)
  | .error e =>
    (if e.code = "ENOENT" then "Error: File not found: " ++ pathToString p
     else "Error reading file: " ++ e.message, fs)

/-- The list_directory handler: a blank or whitespace-only path argument
falls back to the current directory; entry names are joined by newlines. -/
def listDirectoryTool (fs : Fs) (pRaw : String) : String :=
  let dir := if pRaw = "" then "." else if jsTrim pRaw = "" then "." else pRaw
  match readdirSyncE fs (parsePath dir) with
  | .ok names => String.intercalate "\n" names
  | .error e =>
    if e.code = "ENOENT" then "Error: Directory not found: " ++ dir
    else "Error listing directory: " ++ e.message

/-- The write_file handler: recursive mkdir of the parent, then an
unconditional write, reporting the UTF-8 byte count on success. -/
def writeFileTool (fs : Fs) (p : FsPath) (content : List Char) : String × Fs :=
  match mkdirRecE fs p.dropLast with
  | .error e => ("Error writing file: " ++ e.message, fs)
  | .ok fs1 =>
    match writeFileSyncE fs1 p content with
    | .error e => ("Error writing file: " ++ e.message, fs)
    | .ok fs2 =>
      ("Successfully wrote " ++ toString (utf8Len content) ++ " bytes to " ++ pathToString p,
       fs2)

/-- The edit_file handler: read the file, bail out when indexOf misses,
count occurrences as split-pieces minus one (a JavaScript number, hence an
integer that can be negative for the empty needle on empty content), refuse
counts above one, otherwise replace the first occurrence and rewrite. -/
def editFileTool (fs : Fs) (p : FsPath) (oldS newS : List Char) : String × Fs :=
  match readFileSyncE fs p with
  | .error e =>
    (if e.code = "ENOENT" then "Error: File not found: " ++ pathToString p
     else "Error editing file: " ++ e.message, fs)
  | .ok content =>
    match firstIdx oldS content with
    | none => ("Error: old_string not found in " ++ pathToString p, fs)
    | some _ =>
      let count : Int := ((jsSplit content oldS).length : Int) - 1
      if 1 < count then
        ("Error: old_string appears " ++ toString count ++ " times in " ++ pathToString p ++
           ". Must be unique.", fs)
      else
        match writeFileSyncE fs p (jsReplaceFirst content oldS newS) with
        | .ok fs2 => ("Successfully edited " ++ pathToString p, fs2)
        | .error e => ("Error editing file: " ++ e.message, fs)

/-- The delete_file handler: stat, then unlink for a file and rmdir for a
directory; every thrown error is caught, with ENOENT reported as path not
found.  The source has one further branch for stat results that are neither
file nor directory, which this two-case entry model cannot reach. -/
def deleteFileTool (fs : Fs) (p : FsPath) : String × Fs :=
  match statSyncE fs p with
  | .ok (.file _) =>
    match unlinkSyncE fs p with
    | .ok fs2 => ("Successfully deleted file: " ++ pathToString p, fs2)
    | .error e =>
      (if e.code = "ENOENT" then "Error: Path not found: " ++ pathToString p
       else "Error deleting: " ++ e.message, fs)
  | .ok .dir =>
    match rmdirSyncE fs p with
    | .ok fs2 => ("Successfully deleted directory: " ++ pathToString p, fs2)
    | .error e =>
      (if e.code = "ENOENT" then "Error: Path not found: " ++ pathToString p
       else "Error deleting: " ++ e.message, fs)
  | .error e =>
    (if e.code = "ENOENT" then "Error: Path not found: " ++ pathToString p
     else "Error deleting: " ++ e.message, fs)

/-- One atom of the pattern produced by globToRegExp. -/
inductive GPat where
  | lit (c : Char)
  | anyOne
  | anyRun
deriving DecidableEq

/-- Model of globToRegExp: the escaping pass makes every non-wildcard
character a literal atom (star and question are not in the escaped class and
are untouched by it), then star becomes a dot-star and question a single
dot.  The anchors, the dot semantics and the case-insensitive flag live in
the matcher `patMatch` below. -/
def globToRegExp (g : List Char) : List GPat :=
  g.map (fun c => if c = '*' then GPat.anyRun else if c = '?' then GPat.anyOne else GPat.lit c)

/-- The LineTerminator set of the host regex language: the dot produced for
star and question is compiled without the dotAll flag and therefore never
matches a line feed, a carriage return, a line separator or a paragraph
separator. -/
def isLineTerminator (c : Char) : Bool :=
  c == '\n' || c == '\r' || c == Char.ofNat 0x2028 || c == Char.ofNat 0x2029

/-- The canonicalization the case-insensitive flag applies to one character,
restricted to ASCII: lower-case ASCII letters map to their upper-case form
and every other ASCII character to itself, exactly as the host engine
canonicalizes ASCII under the i flag without the u flag.  On non-ASCII
letters the host may fold further (for example e-acute with E-acute), so
statements that must cover every character take the canonicalization as a
parameter instead of fixing this one. -/
def canonAscii : Char → Char := Char.toUpper

/-- Matcher semantics of the produced pattern, anchored at both ends: the
model of RegExp.prototype.test for the patterns globToRegExp produces,
parameterized by the engine canonicalization `canon` used for the
case-insensitive flag.  A literal matches a character with the same
canonical form; the dot atoms match exactly one character that is not a
line terminator; dot-star matches any run of non-line-terminator
characters. -/
def patMatch (canon : Char → Char) : List GPat → List Char → Bool
  | [], [] => true
  | [], _ :: _ => false
  | .lit _ :: _, [] => false
  | .lit c :: ps, d :: s => (canon c == canon d) && patMatch canon ps s
  | .anyOne :: _, [] => false
  | .anyOne :: ps, d :: s => !isLineTerminator d && patMatch canon ps s
  | .anyRun :: ps, [] => patMatch canon ps []
  | .anyRun :: ps, c :: s =>
    patMatch canon ps (c :: s) || (!isLineTerminator c && patMatch canon (.anyRun :: ps) s)
termination_by ps s => (ps.length, s.length)

/-- The whole glob filter: translate the glob and test a candidate name
under the given canonicalization. -/
def globMatch (canon : Char → Char) (g s : List Char) : Bool :=
  patMatch canon (globToRegExp g) s

/-- Declarative reading of the glob semantics the translation actually
implements: star matches any run of non-line-terminator characters,
question exactly one non-line-terminator character, every other character
matches exactly the characters sharing its canonical form, and the whole
pattern must span the whole name. -/
def GlobMatches (canon : Char → Char) : List Char → List Char → Prop
  | [], s => s = []
  | c :: g, s =>
    if c = '*' then
      ∃ pre suf, s = pre ++ suf ∧ (∀ d ∈ pre, isLineTerminator d = false) ∧
        GlobMatches canon g suf
    else if c = '?' then
      ∃ d suf, s = d :: suf ∧ isLineTerminator d = false ∧ GlobMatches canon g suf
    else ∃ d suf, s = d :: suf ∧ canon c = canon d ∧ GlobMatches canon g suf

/-- Model of path.join as the walker uses it, on already-normalized inputs:
joining onto the current directory drops the dot. -/
def pathJoin (a b : String) : String := if a = "." then b else a ++ "/" ++ b

/-- Model of path.basename on the slash-joined paths the walker produces. -/
def basename (s : String) : String :=
  match (splitOnSlash s.toList).getLast? with
  | some l => String.mk l
  | none => s

/-- A directory tree as the search walker sees it.  Unreadable subtrees and
non-file non-directory entries are skipped silently by the source walker and
are outside this model. -/
inductive FsTree where
  | file (name : String) (content : List Char)
  | dir (name : String) (entries : List FsTree)

mutual

/-- Depth-first walk of one entry, producing joined path and content for
every regular file, directories first recursed in listing order. -/
def walkEntry (cur : String) : FsTree → List (String × List Char)
  | .file n c => [(pathJoin cur n, c)]
  | .dir n es => walkList (pathJoin cur n) es

/-- Depth-first walk of a listing, in order. -/
def walkList (cur : String) : List FsTree → List (String × List Char)
  | [] => []
  | e :: es => walkEntry cur e ++ walkList cur es

end

/-- Model of content.split on the regex of an optional carriage return
followed by a line feed: carriage-return line-feed pairs and lone line feeds
cut lines, a lone carriage return stays inside its line. -/
def splitLinesJS : List Char → List (List Char)
  | [] => [[]]
  | '\r' :: '\n' :: rest => [] :: splitLinesJS rest
  | '\n' :: rest => [] :: splitLinesJS rest
  | c :: rest => consHead c (splitLinesJS rest)

/-- A compiled line matcher: the model of a compiled case-insensitive regex
applied by RegExp.prototype.test.  The regex engine is external to the
program, so searches take the matcher as an oracle. -/
abbrev Matcher := List Char → Bool

/-- One search result line, exactly as the source formats it. -/
def fmtLine (fp : String) (n : Nat) (l : List Char) : String :=
  fp ++ ":" ++ toString n ++ ": " ++ String.mk l

/-- The truncation marker line appended when the match cap is reached. -/
def truncMsg : String := "... (truncated, more results available)"

/-- Whether a file participates in the search: no filter keeps everything, a
filter is tested against the base name only. -/
def keepFile (filt : Option Matcher) (fp : String) : Bool :=
  match filt with
  | none => true
  | some f => f (basename fp).toList

/-- All formatted matches of one file from a given zero-based line index on:
the reference list of result lines, in line order with one-based numbers. -/
def matchesFrom (m : Matcher) (fp : String) : Nat → List (List Char) → List String
  | _, [] => []
  | i, l :: ls => (if m l then [fmtLine fp (i + 1) l] else []) ++ matchesFrom m fp (i + 1) ls

def fileMatches (m : Matcher) (fp : String) (c : List Char) : List String :=
  matchesFrom m fp 0 (splitLinesJS c)

/-- All result lines of the whole search in file-traversal-then-line order,
without any cap: the reference against which the capped scan is compared. -/
def allMatches (m : Matcher) (filt : Option Matcher) : List (String × List Char) → List String
  | [] => []
  | (fp, c) :: rest =>
    (if keepFile filt fp then fileMatches m fp c else []) ++ allMatches m filt rest

/-- The inner line loop of searchTool: push each match; when the results
list has reached fifty entries, append the truncation marker and signal the
early return that aborts the entire search. -/
def scanLines (fp : String) (m : Matcher) : Nat → List (List Char) → List String → List String × Bool
  | _, [], acc => (acc, false)
  | i, l :: ls, acc =>
    if m l then
      let acc2 := acc ++ [fmtLine fp (i + 1) l]
      if 50 ≤ acc2.length then (acc2 ++ [truncMsg], true)
      else scanLines fp m (i + 1) ls acc2
    else scanLines fp m (i + 1) ls acc

/-- The outer file loop of searchTool: skip files rejected by the base-name
filter, scan the rest, and stop the whole search when the cap was hit. -/
def scanFiles (m : Matcher) (filt : Option Matcher) : List (String × List Char) → List String → List String
  | [], acc => acc
  | (fp, c) :: rest, acc =>
    if keepFile filt fp then
      let pr := scanLines fp m 0 (splitLinesJS c) acc
      if pr.2 then pr.1 else scanFiles m filt rest pr.1
    else scanFiles m filt rest acc

/-- searchTool after a successful regex compile: walk the tree under the
root, scan, and render either the no-match sentinel or the joined lines. -/
def searchToolOk (m : Matcher) (filt : Option Matcher) (root : String) (entries : List FsTree) : String :=
  let results := scanFiles m filt (walkList root entries) []
  if results = [] then "No matches found" else String.intercalate "\n" results

/-- The full searchTool: default a blank root to the current directory,
return the compile error of the pattern immediately when the host regex
engine rejects it, otherwise build the optional glob filter from the trimmed
file pattern and scan.  The compile result stands in for new RegExp. -/
def searchToolTop (compiled : Except String Matcher) (pRaw : String)
    (fileArg : Option String) (entries : List FsTree) : String :=
  let root := if pRaw = "" then "." else if jsTrim pRaw = "" then "." else pRaw
  match compiled with
  | .error e => "Invalid regex pattern: " ++ e
  | .ok m =>
    let filt : Option Matcher :=
      match fileArg with
      | some fp =>
        if fp = "" then none
        else if jsTrim fp = "" then none
        else some (fun b => globMatch canonAscii (jsTrim fp).toList b)
      | none => none
    searchToolOk m filt root entries

/-- The argument payload of one tool call, after JSON decoding: absent
fields model undefined. -/
structure ToolArgs where
  path : Option String
  content : Option String
  pattern : Option String
  old_string : Option String
  new_string : Option String
  file_pattern : Option String
deriving DecidableEq

/-- The state the tools act on: the flat filesystem seen by the single-file
tools, the directory tree seen by the search walker, and the host regex
engine as a compile oracle.  The two filesystem views are independent here
because no studied property relates search results to earlier writes. -/
structure World where
  fs : Fs
  tree : List FsTree
  regexCompile : String → Except String Matcher

/-- The executeTool dispatcher of the six-tool agent: route by name, hand
the decoded arguments to the handler, and fall through to the unknown-tool
text.  A missing required argument makes the underlying host call throw
inside the handler's try, so those branches yield the handler's catch text
here. -/
def executeTool (w : World) (name : String) (a : ToolArgs) : String × World :=
  if name = "read_file" then
    match a.path with
    | some p =>
      let pr := readFileTool w.fs (parsePath p)
      (pr.1, { w with fs := pr.2 })
    | none => ("Error reading file: invalid path argument", w)
  else if name = "list_directory" then
    (listDirectoryTool w.fs (a.path.getD "."), w)
  else if name = "search" then
    match a.pattern with
    | some pat => (searchToolTop (w.regexCompile pat) (a.path.getD ".") a.file_pattern w.tree, w)
    | none => (searchToolTop (w.regexCompile "undefined") (a.path.getD ".") a.file_pattern w.tree, w)
  else if name = "write_file" then
    match a.path, a.content with
    | some p, some c =>
      let pr := writeFileTool w.fs (parsePath p) c.toList
      (pr.1, { w with fs := pr.2 })
    | _, _ => ("Error writing file: invalid arguments", w)
  else if name = "edit_file" then
    match a.path, a.old_string, a.new_string with
    | some p, some o, some n =>
      let pr := editFileTool w.fs (parsePath p) o.toList n.toList
      (pr.1, { w with fs := pr.2 })
    | _, _, _ => ("Error editing file: invalid arguments", w)
  else if name = "delete_file" then
    match a.path with
    | some p =>
      let pr := deleteFileTool w.fs (parsePath p)
      (pr.1, { w with fs := pr.2 })
    | none => ("Error deleting: invalid arguments", w)
  else ("Unknown tool: " ++ name, w)

/-- The read_file handler of the minimal agent in src/agent.ts: a bare
readFileSync with no try/catch, so a missing file is a thrown error
propagating out of the handler. -/
def readFileAgent (fs : Fs) (p : FsPath) : Except JsErr String :=
  (readFileSyncE fs p).map String.mk

/-- The list_directory handler of the minimal agent: likewise uncaught. -/
def listDirectoryAgent (fs : Fs) (pRaw : String) : Except JsErr String :=
  (readdirSyncE fs (parsePath pRaw)).map (String.intercalate "\n")

/-- The dispatch of the minimal agent's run loop: faults of the two handlers
are not caught anywhere and escape the dispatch itself. -/
def agentExecute (fs : Fs) (name : String) (pathArg : Option String) : Except JsErr String :=
  if name = "read_file" then
    match pathArg with
    | some p => readFileAgent fs (parsePath p)
    | none => .error ⟨"ERR_INVALID_ARG_TYPE", "the path argument must be of type string"⟩
  else if name = "list_directory" then listDirectoryAgent fs (pathArg.getD ".")
  else .ok "Unknown tool"

/-- One tool call of a model response. -/
structure ToolCall where
  id : String
  name : String
  args : ToolArgs

/-- One message of the conversation the controller appends to. -/
inductive ChatMsg where
  | user (content : String)
  | assistant (content : Option String) (toolCalls : Option (List ToolCall))
  | tool (id : String) (content : String)

/-- One model response: optional content and the optional tool-call list,
mirroring the message type of the client library where the tool-call field
may be absent. -/
structure Response where
  content : Option String
  toolCalls : Option (List ToolCall)

/-- Execute the tool calls of one response in order, threading the world and
producing one tool-result message per call with the call's identifier. -/
def execCalls (w : World) : List ToolCall → List ChatMsg × World
  | [] => ([], w)
  | tc :: rest =>
    let pr := executeTool w tc.name tc.args
    let pr2 := execCalls pr.2 rest
    (ChatMsg.tool tc.id pr.1 :: pr2.1, pr2.2)

/-- The run loop, with the model client as an oracle list of responses: a
response without a tool-call field ends the run, returning the transcript,
the world and the printed content; otherwise the assistant message and all
tool results are appended and the loop asks for the next response.  When the
oracle has no response left for a required model invocation, the result is
none. -/
def runLoop : World → List ChatMsg → List Response → Option (List ChatMsg × World × Option String)
  | _, _, [] => none
  | w, msgs, r :: rest =>
    match r.toolCalls with
    | none => some (msgs, w, r.content)
    | some tcs =>
      let pr := execCalls w tcs
      runLoop pr.2 (msgs ++ ChatMsg.assistant r.content (some tcs) :: pr.1) rest

/-- A top-level run: seed the conversation with the user prompt. -/
def run (w : World) (promptText : String) (oracle : List Response) :
    Option (List ChatMsg × World × Option String) :=
  runLoop w [ChatMsg.user promptText] oracle


/-- Concrete fixtures used by witnesses and counterexamples below. -/
def mAll : Matcher := fun _ => true

def c50 : List Char := (String.intercalate "\n" (List.replicate 50 "a")).toList

def t50 : List FsTree := [FsTree.file "f" c50]

def c51 : List Char := (String.intercalate "\n" (List.replicate 51 "b")).toList

def t51 : List FsTree := [FsTree.file "h" c51]

def wEmpty : World := ⟨⟨[]⟩, [], fun _ => Except.error "no engine"⟩

def noArgs : ToolArgs := ⟨none, none, none, none, none, none⟩

theorem consHead_length (c : Char) (xs : List (List Char)) (h : xs ≠ []) :
    (consHead c xs).length = xs.length := by
  cases xs with
  | nil => exact absurd rfl h
  | cons l ls => rfl

theorem splitGoNE_ne_nil (a : Char) (t : List Char) (s : List Char) :
    splitGoNE a t s ≠ [] := by
  induction s using splitGoNE.induct a t with
  | case1 => simp [splitGoNE]
  | case2 c s hpre ih => simp [splitGoNE, hpre]
  | case3 c s hpre ih =>
    simp [splitGoNE, hpre]
    cases hsp : splitGoNE a t s with
    | nil => exact absurd hsp ih
    | cons l ls => simp [consHead]

theorem length_splitGoNE (a : Char) (t : List Char) (s : List Char) :
    (splitGoNE a t s).length = countOccNE a t s + 1 := by
  induction s using splitGoNE.induct a t with
  | case1 => simp [splitGoNE, countOccNE]
  | case2 c s hpre ih => simp [splitGoNE, countOccNE, hpre, ih]
  | case3 c s hpre ih =>
    simp [splitGoNE, countOccNE, hpre]
    rw [consHead_length _ _ (splitGoNE_ne_nil a t s), ih]

theorem firstIdx_none_iff (a : Char) (t : List Char) (s : List Char) :
    firstIdx (a :: t) s = none ↔ countOccNE a t s = 0 := by
  induction s with
  | nil => simp [firstIdx, countOccNE, List.isPrefixOf]
  | cons c s ih =>
    by_cases hpre : (a :: t).isPrefixOf (c :: s)
    · simp [firstIdx, countOccNE, hpre]
    · simp [firstIdx, countOccNE, hpre, ih]

/-- C1: evaluation of edit_file at the failing input.  The file f contains
exactly one occurrence of old_string b (occurrence count one), yet replacing
it by the four-character new_string dollar amp dollar amp rewrites the file
to bb, because String.prototype.replace expands dollar escapes in the
replacement; the rest-byte-identical replacement the claim describes would
have produced the literal new_string. -/
theorem editFile_single_occurrence_dollar_bug :
    occurrences ['b'] ['b'] = 1 ∧
    editFileTool ⟨[(["f"], FsEntry.file ['b'])]⟩ ["f"] ['b'] "$&$&".toList =
      ("Successfully edited f", ⟨[(["f"], FsEntry.file ['b', 'b'])]⟩) ∧
    (['b', 'b'] : List Char) ≠ "$&$&".toList := by
  refine ⟨?_, ?_, by decide⟩
  · simp [occurrences, countOccNE, List.isPrefixOf]
  · simp only [editFileTool, readFileSyncE, Fs.lookup, jsSplit]
    simp [splitGoNE, List.isPrefixOf, firstIdx, jsReplaceFirst, dollarSub,
      writeFileSyncE, Fs.lookup, Fs.setFile, pathToString]
    decide

/-- C3 counterexample: with the empty old_string, which occurs twice in the
one-character file a (once at each position), the handler does not return
the claimed counting error: indexOf finds the empty string at zero, the
split-based count comes out zero, and the file is rewritten to Xa. -/
theorem editFile_empty_old_counterexample :
    occurrences ['a'] [] = 2 ∧
    editFileTool ⟨[(["a"], FsEntry.file ['a'])]⟩ ["a"] [] ['X'] =
      ("Successfully edited a", ⟨[(["a"], FsEntry.file ['X', 'a'])]⟩) := by
  constructor
  · decide
  · simp only [editFileTool, readFileSyncE, Fs.lookup, jsSplit]
    simp [firstIdx, jsReplaceFirst, dollarSub, writeFileSyncE, Fs.lookup,
      Fs.setFile, pathToString, List.isPrefixOf]
    decide

/-- C3 amended: for a file whose content has zero occurrences of old_string,
edit_file reports the not-found error and returns the filesystem unchanged;
for a nonempty old_string occurring at least twice it reports the error
naming the exact occurrence count and returns the filesystem unchanged. -/
theorem editFile_error_paths (fs : Fs) (p : FsPath) (content oldS newS : List Char)
    (hf : fs.lookup p = some (FsEntry.file content)) :
    (occurrences content oldS = 0 →
      editFileTool fs p oldS newS = ("Error: old_string not found in " ++ pathToString p, fs)) ∧
    (oldS ≠ [] → 2 ≤ occurrences content oldS →
      editFileTool fs p oldS newS =
        ("Error: old_string appears " ++ toString ((occurrences content oldS : Int)) ++
          " times in " ++ pathToString p ++ ". Must be unique.", fs)) := by
  constructor
  · intro h0
    match oldS with
    | [] => simp [occurrences] at h0
    | a :: t =>
      have hnone : firstIdx (a :: t) content = none :=
        (firstIdx_none_iff a t content).2 (by simpa [occurrences] using h0)
      simp only [editFileTool, readFileSyncE, hf, hnone]
  · intro hne h2
    match oldS with
    | [] => exact absurd rfl hne
    | a :: t =>
      have hocc : occurrences content (a :: t) = countOccNE a t content := rfl
      rw [hocc] at h2 ⊢
      have hsome : firstIdx (a :: t) content ≠ none := by
        intro hn
        have := (firstIdx_none_iff a t content).1 hn
        omega
      obtain ⟨i, hi⟩ := Option.ne_none_iff_exists'.1 hsome
      have hlen : (jsSplit content (a :: t)).length = countOccNE a t content + 1 := by
        simpa [jsSplit] using length_splitGoNE a t content
      have hcount : ((jsSplit content (a :: t)).length : Int) - 1 = (countOccNE a t content : Int) := by
        rw [hlen]; push_cast; ring
      simp only [editFileTool, readFileSyncE, hf, hi, hcount]
      rw [if_pos (by exact_mod_cast by omega)]

/-- Witness for the amended C3 theorem: both error branches evaluated on
concrete files, a file abab with old_string ab occurring twice, and a file
zz with absent old_string q. -/
theorem editFile_error_paths_witness :
    editFileTool ⟨[(["g"], FsEntry.file ['z', 'z'])]⟩ ["g"] ['q'] ['r'] =
      ("Error: old_string not found in " ++ pathToString ["g"], ⟨[(["g"], FsEntry.file ['z', 'z'])]⟩) ∧
    editFileTool ⟨[(["h"], FsEntry.file ['a', 'b', 'a', 'b'])]⟩ ["h"] ['a', 'b'] ['r'] =
      ("Error: old_string appears " ++ toString ((occurrences ['a', 'b', 'a', 'b'] ['a', 'b'] : Int)) ++
        " times in " ++ pathToString ["h"] ++ ". Must be unique.",
       ⟨[(["h"], FsEntry.file ['a', 'b', 'a', 'b'])]⟩) := by
  constructor
  · exact (editFile_error_paths ⟨[(["g"], FsEntry.file ['z', 'z'])]⟩ ["g"] ['z', 'z'] ['q'] ['r']
      (by decide)).1 (by simp [occurrences, countOccNE, List.isPrefixOf])
  · exact (editFile_error_paths ⟨[(["h"], FsEntry.file ['a', 'b', 'a', 'b'])]⟩ ["h"]
      ['a', 'b', 'a', 'b'] ['a', 'b'] ['r'] (by decide)).2 (by decide)
      (by simp [occurrences, countOccNE, List.isPrefixOf])

theorem scanLines_cons_match (fp : String) (m : Matcher) (i : Nat) (l : List Char)
    (ls : List (List Char)) (acc : List String) (hm : m l = true) :
    scanLines fp m i (l :: ls) acc =
      if 50 ≤ (acc ++ [fmtLine fp (i + 1) l]).length
      then ((acc ++ [fmtLine fp (i + 1) l]) ++ [truncMsg], true)
      else scanLines fp m (i + 1) ls (acc ++ [fmtLine fp (i + 1) l]) := by
  simp only [scanLines, hm, if_true]

theorem scanLines_cons_nomatch (fp : String) (m : Matcher) (i : Nat) (l : List Char)
    (ls : List (List Char)) (acc : List String) (hm : m l = false) :
    scanLines fp m i (l :: ls) acc = scanLines fp m (i + 1) ls acc := by
  simp only [scanLines, hm, Bool.false_eq_true, if_false]

theorem matchesFrom_cons (m : Matcher) (fp : String) (i : Nat) (l : List Char) (ls : List (List Char)) :
    matchesFrom m fp i (l :: ls) =
      (if m l then [fmtLine fp (i + 1) l] else []) ++ matchesFrom m fp (i + 1) ls := rfl

theorem scanLines_spec (fp : String) (m : Matcher) (ls : List (List Char)) :
    ∀ (i : Nat) (acc : List String), acc.length ≤ 49 →
    scanLines fp m i ls acc =
      if acc.length + (matchesFrom m fp i ls).length ≤ 49
      then (acc ++ matchesFrom m fp i ls, false)
      else ((acc ++ matchesFrom m fp i ls).take 50 ++ [truncMsg], true) := by
  induction ls with
  | nil =>
    intro i acc hacc
    rw [if_pos (by simpa [matchesFrom] using hacc)]
    simp [scanLines, matchesFrom]
  | cons l ls ih =>
    intro i acc hacc
    by_cases hm : m l
    · have hms : matchesFrom m fp i (l :: ls) = [fmtLine fp (i + 1) l] ++ matchesFrom m fp (i + 1) ls := by
        rw [matchesFrom_cons, if_pos hm]
      rw [scanLines_cons_match fp m i l ls acc hm]
      by_cases hfull : 50 ≤ (acc ++ [fmtLine fp (i + 1) l]).length
      · have h49 : acc.length = 49 := by simp at hfull; omega
        have hgt : ¬ acc.length + (matchesFrom m fp i (l :: ls)).length ≤ 49 := by
          rw [hms]; simp; omega
        rw [if_pos hfull, if_neg hgt]
        have htake : (acc ++ matchesFrom m fp i (l :: ls)).take 50 = acc ++ [fmtLine fp (i + 1) l] := by
          rw [hms, ← List.append_assoc, List.take_append_eq_append_take,
            List.take_of_length_le (by simp [h49]), Nat.sub_eq_zero_of_le (by simp [h49]),
            List.take_zero, List.append_nil]
        rw [htake]
      · have hle : (acc ++ [fmtLine fp (i + 1) l]).length ≤ 49 := by omega
        rw [if_neg hfull, ih (i + 1) (acc ++ [fmtLine fp (i + 1) l]) hle, hms, ← List.append_assoc]
        by_cases hc : (acc ++ [fmtLine fp (i + 1) l]).length + (matchesFrom m fp (i + 1) ls).length ≤ 49
        · rw [if_pos hc, if_pos (by simp at hc ⊢; omega)]
        · rw [if_neg hc, if_neg (by simp at hc ⊢; omega)]
    · have hmf : m l = false := by simpa using hm
      have hms : matchesFrom m fp i (l :: ls) = matchesFrom m fp (i + 1) ls := by
        rw [matchesFrom_cons, hmf]; simp
      rw [scanLines_cons_nomatch fp m i l ls acc hmf, ih (i + 1) acc hacc, hms]

theorem scanFiles_cons_keep (m : Matcher) (filt : Option Matcher) (fp : String) (c : List Char)
    (rest : List (String × List Char)) (acc : List String) (hk : keepFile filt fp = true) :
    scanFiles m filt ((fp, c) :: rest) acc =
      (if (scanLines fp m 0 (splitLinesJS c) acc).2
       then (scanLines fp m 0 (splitLinesJS c) acc).1
       else scanFiles m filt rest (scanLines fp m 0 (splitLinesJS c) acc).1) := by
  simp only [scanFiles, hk, if_true]

theorem scanFiles_cons_skip (m : Matcher) (filt : Option Matcher) (fp : String) (c : List Char)
    (rest : List (String × List Char)) (acc : List String) (hk : keepFile filt fp = false) :
    scanFiles m filt ((fp, c) :: rest) acc = scanFiles m filt rest acc := by
  simp only [scanFiles, hk, Bool.false_eq_true, if_false]

theorem allMatches_cons (m : Matcher) (filt : Option Matcher) (fp : String) (c : List Char)
    (rest : List (String × List Char)) :
    allMatches m filt ((fp, c) :: rest) =
      (if keepFile filt fp then fileMatches m fp c else []) ++ allMatches m filt rest := rfl

theorem scanFiles_spec (m : Matcher) (filt : Option Matcher) (files : List (String × List Char)) :
    ∀ (acc : List String), acc.length ≤ 49 →
    scanFiles m filt files acc =
      if acc.length + (allMatches m filt files).length ≤ 49
      then acc ++ allMatches m filt files
      else (acc ++ allMatches m filt files).take 50 ++ [truncMsg] := by
  induction files with
  | nil =>
    intro acc hacc
    rw [if_pos (by simpa [allMatches] using hacc)]
    simp [scanFiles, allMatches]
  | cons f rest ih =>
    obtain ⟨fp, c⟩ := f
    intro acc hacc
    by_cases hk : keepFile filt fp
    · have hms : allMatches m filt ((fp, c) :: rest) = fileMatches m fp c ++ allMatches m filt rest := by
        rw [allMatches_cons, if_pos hk]
      rw [scanFiles_cons_keep m filt fp c rest acc hk,
        scanLines_spec fp m (splitLinesJS c) 0 acc hacc]
      by_cases hov : acc.length + (matchesFrom m fp 0 (splitLinesJS c)).length ≤ 49
      · rw [if_pos hov]
        have hlen2 : (acc ++ matchesFrom m fp 0 (splitLinesJS c)).length ≤ 49 := by
          simpa using hov
        simp only [if_false, Bool.false_eq_true]
        rw [ih (acc ++ matchesFrom m fp 0 (splitLinesJS c)) hlen2, hms, ← List.append_assoc]
        have hfm : fileMatches m fp c = matchesFrom m fp 0 (splitLinesJS c) := rfl
        rw [hfm]
        by_cases hc : (acc ++ matchesFrom m fp 0 (splitLinesJS c)).length + (allMatches m filt rest).length ≤ 49
        · rw [if_pos hc, if_pos (by simp at hc ⊢; omega)]
        · rw [if_neg hc, if_neg (by simp at hc ⊢; omega)]
      · rw [if_neg hov]
        simp only [if_true]
        rw [hms]
        have hfm : fileMatches m fp c = matchesFrom m fp 0 (splitLinesJS c) := rfl
        rw [hfm]
        have hbig : 50 ≤ (acc ++ matchesFrom m fp 0 (splitLinesJS c)).length := by
          simp at hov ⊢; omega
        have hge : ¬ acc.length + (matchesFrom m fp 0 (splitLinesJS c) ++ allMatches m filt rest).length ≤ 49 := by
          simp at hov ⊢; omega
        have htk : (acc ++ (matchesFrom m fp 0 (splitLinesJS c) ++ allMatches m filt rest)).take 50
            = (acc ++ matchesFrom m fp 0 (splitLinesJS c)).take 50 := by
          rw [← List.append_assoc, List.take_append_eq_append_take,
            Nat.sub_eq_zero_of_le hbig, List.take_zero, List.append_nil]
        rw [if_neg hge, htk]
    · have hkf : keepFile filt fp = false := by simpa using hk
      have hms : allMatches m filt ((fp, c) :: rest) = allMatches m filt rest := by
        rw [allMatches_cons, hkf]; simp
      rw [scanFiles_cons_skip m filt fp c rest acc hkf, ih acc hacc, hms]

/-- C2 counterexample: a tree holding exactly fifty matching lines.  The
claim promises exactly N result lines and no marker for N up to fifty, but
the scan stops right after pushing the fiftieth match and appends the
truncation marker, returning fifty-one lines although nothing was omitted. -/
theorem search_fifty_matches_marker :
    (allMatches mAll none (walkList "." t50)).length = 50 ∧
    scanFiles mAll none (walkList "." t50) [] =
      allMatches mAll none (walkList "." t50) ++ [truncMsg] := by
  constructor
  · decide
  · decide

/-- C2 amended: over any walked tree, with N the number of matching lines in
traversal order: N zero yields the fixed sentinel; N at most forty-nine
yields exactly the N formatted result lines, joined by newlines; N fifty or
more yields exactly the first fifty result lines followed by the truncation
marker line (so at N exactly fifty the marker appears although nothing was
omitted). -/
theorem search_result_characterization (m : Matcher) (filt : Option Matcher)
    (root : String) (entries : List FsTree) :
    (allMatches m filt (walkList root entries) = [] →
      searchToolOk m filt root entries = "No matches found") ∧
    ((allMatches m filt (walkList root entries)).length ≤ 49 →
      scanFiles m filt (walkList root entries) [] = allMatches m filt (walkList root entries) ∧
      (allMatches m filt (walkList root entries) ≠ [] →
        searchToolOk m filt root entries =
          String.intercalate "\n" (allMatches m filt (walkList root entries)))) ∧
    (50 ≤ (allMatches m filt (walkList root entries)).length →
      scanFiles m filt (walkList root entries) [] =
        (allMatches m filt (walkList root entries)).take 50 ++ [truncMsg] ∧
      searchToolOk m filt root entries =
        String.intercalate "\n" ((allMatches m filt (walkList root entries)).take 50 ++ [truncMsg])) := by
  have hspec := scanFiles_spec m filt (walkList root entries) [] (by simp)
  simp only [List.length_nil, Nat.zero_add, List.nil_append] at hspec
  refine ⟨?_, ?_, ?_⟩
  · intro hempty
    have hz : scanFiles m filt (walkList root entries) [] = [] := by
      rw [hspec, if_pos (by simp [hempty])]; exact hempty
    simp [searchToolOk, hz]
  · intro h49
    have hsc : scanFiles m filt (walkList root entries) [] = allMatches m filt (walkList root entries) := by
      rw [hspec, if_pos h49]
    refine ⟨hsc, fun hne => ?_⟩
    simp only [searchToolOk, hsc, if_neg hne]
  · intro h50
    have hsc : scanFiles m filt (walkList root entries) [] =
        (allMatches m filt (walkList root entries)).take 50 ++ [truncMsg] := by
      rw [hspec, if_neg (by omega)]
    refine ⟨hsc, ?_⟩
    have hne : (allMatches m filt (walkList root entries)).take 50 ++ [truncMsg] ≠ [] := by
      simp
    simp only [searchToolOk, hsc, if_neg hne]

/-- Witness for the amended C2 theorem at three concrete trees: an empty
tree, a one-match tree, and a tree with fifty-one matching lines. -/
theorem search_result_characterization_witness :
    searchToolOk mAll none "." [] = "No matches found" ∧
    searchToolOk mAll none "." [FsTree.file "g" ['a']] = "g:1: a" ∧
    scanFiles mAll none (walkList "." t51) [] =
      (allMatches mAll none (walkList "." t51)).take 50 ++ [truncMsg] := by
  refine ⟨?_, ?_, ?_⟩
  · exact (search_result_characterization mAll none "." []).1 (by decide)
  · have h := ((search_result_characterization mAll none "."
      [FsTree.file "g" ['a']]).2.1 (by decide)).2 (by decide)
    rw [h]; decide
  · exact ((search_result_characterization mAll none "." t51).2.2 (by decide)).1

theorem patMatch_anyRun (canon : Char → Char) (ps : List GPat) (s : List Char) :
    patMatch canon (.anyRun :: ps) s = true ↔
      ∃ k, k ≤ s.length ∧ (∀ d ∈ s.take k, isLineTerminator d = false) ∧
        patMatch canon ps (s.drop k) = true := by
  induction s with
  | nil =>
    simp only [patMatch]
    constructor
    · intro h; exact ⟨0, Nat.le_refl 0, by simp, h⟩
    · rintro ⟨k, hk, _, h⟩
      have hk0 : k = 0 := Nat.le_zero.1 hk
      subst hk0; exact h
  | cons c s ih =>
    have hstep : patMatch canon (.anyRun :: ps) (c :: s) =
        (patMatch canon ps (c :: s) ||
          (!isLineTerminator c && patMatch canon (.anyRun :: ps) s)) := by
      simp [patMatch]
    rw [hstep]
    constructor
    · intro h
      have h2 : patMatch canon ps (c :: s) = true ∨
          (isLineTerminator c = false ∧ patMatch canon (.anyRun :: ps) s = true) := by
        simpa using h
      rcases h2 with h1 | ⟨hc, h2⟩
      · exact ⟨0, Nat.zero_le _, by simp, h1⟩
      · obtain ⟨k, hk, hnt, hm⟩ := ih.1 h2
        refine ⟨k + 1, by simpa using Nat.succ_le_succ hk, ?_, by simpa using hm⟩
        intro d hd
        rw [List.take_succ_cons] at hd
        rcases List.mem_cons.1 hd with rfl | hd2
        · exact hc
        · exact hnt d hd2
    · rintro ⟨k, hk, hnt, hm⟩
      match k with
      | 0 =>
        have hm0 : patMatch canon ps (c :: s) = true := by simpa using hm
        simp [hm0]
      | k + 1 =>
        have hc : isLineTerminator c = false := by
          refine hnt c ?_
          rw [List.take_succ_cons]
          exact List.mem_cons_self c _
        have hr : patMatch canon (.anyRun :: ps) s = true := by
          refine ih.2 ⟨k, ?_, ?_, ?_⟩
          · simpa using Nat.le_of_succ_le_succ hk
          · intro d hd
            refine hnt d ?_
            rw [List.take_succ_cons]
            exact List.mem_cons_of_mem c hd
          · simpa using hm
        simp [hr, hc]

theorem globMatch_iff (canon : Char → Char) (g : List Char) :
    ∀ s, globMatch canon g s = true ↔ GlobMatches canon g s := by
  induction g with
  | nil =>
    intro s
    cases s with
    | nil => simp [globMatch, globToRegExp, patMatch, GlobMatches]
    | cons c s => simp [globMatch, globToRegExp, patMatch, GlobMatches]
  | cons c g ih =>
    intro s
    by_cases hstar : c = '*'
    · subst hstar
      have htr : globToRegExp ('*' :: g) = GPat.anyRun :: globToRegExp g := by
        simp [globToRegExp]
      have hgm : GlobMatches canon ('*' :: g) s =
          (∃ pre suf, s = pre ++ suf ∧ (∀ d ∈ pre, isLineTerminator d = false) ∧
            GlobMatches canon g suf) := by
        simp [GlobMatches]
      rw [globMatch, htr, hgm, patMatch_anyRun]
      constructor
      · rintro ⟨k, hk, hnt, hm⟩
        exact ⟨s.take k, s.drop k, (List.take_append_drop k s).symm, hnt,
          (ih (s.drop k)).1 hm⟩
      · rintro ⟨pre, suf, heq, hnt, hgs⟩
        refine ⟨pre.length, ?_, ?_, ?_⟩
        · rw [heq]; simp
        · intro d hd
          refine hnt d ?_
          have htk : s.take pre.length = pre := by
            rw [heq, List.take_left]
          rw [htk] at hd
          exact hd
        · have hd : s.drop pre.length = suf := by rw [heq]; simp
          rw [hd]; exact (ih suf).2 hgs
    · by_cases hq : c = '?'
      · subst hq
        have htr : globToRegExp ('?' :: g) = GPat.anyOne :: globToRegExp g := by
          simp [globToRegExp]
        have hgm : GlobMatches canon ('?' :: g) s =
            (∃ d suf, s = d :: suf ∧ isLineTerminator d = false ∧
              GlobMatches canon g suf) := by
          simp [GlobMatches]
        rw [globMatch, htr, hgm]
        cases s with
        | nil =>
          simp [patMatch]
        | cons d s =>
          have hp : patMatch canon (GPat.anyOne :: globToRegExp g) (d :: s) =
              (!isLineTerminator d && patMatch canon (globToRegExp g) s) := by
            simp [patMatch]
          rw [hp]
          constructor
          · intro hm
            have h1 : isLineTerminator d = false ∧
                patMatch canon (globToRegExp g) s = true := by
              simpa using hm
            exact ⟨d, s, rfl, h1.1, (ih s).1 h1.2⟩
          · rintro ⟨d2, suf, heq, hterm, hgs⟩
            cases heq
            have h3 : patMatch canon (globToRegExp g) s = true := by
              simpa [globMatch] using (ih s).2 hgs
            simp [h3, hterm]
      · have htr : globToRegExp (c :: g) = GPat.lit c :: globToRegExp g := by
          simp [globToRegExp, hstar, hq]
        have hgm : GlobMatches canon (c :: g) s =
            (∃ d suf, s = d :: suf ∧ canon c = canon d ∧ GlobMatches canon g suf) := by
          simp [GlobMatches, hstar, hq]
        rw [globMatch, htr, hgm]
        cases s with
        | nil =>
          simp [patMatch]
        | cons d s =>
          have hp : patMatch canon (GPat.lit c :: globToRegExp g) (d :: s) =
              ((canon c == canon d) && patMatch canon (globToRegExp g) s) := by
            simp [patMatch]
          rw [hp]
          constructor
          · intro hm
            have h1 : (canon c == canon d) = true ∧
                patMatch canon (globToRegExp g) s = true := by
              simpa using hm
            exact ⟨d, s, rfl, by simpa using h1.1, (ih s).1 h1.2⟩
          · rintro ⟨d2, suf, heq, hlow, hgs⟩
            cases heq
            have h3 : patMatch canon (globToRegExp g) s = true := by
              simpa [globMatch] using (ih s).2 hgs
            simp [h3, hlow]

/-- C6 counterexample: the dot produced for star is compiled without the
dotAll flag, so it never matches a line terminator.  The glob star alone
therefore fails on the name a line-feed b, although that name is a run of
characters and the claim's any-run reading demands a match; the same glob
does match ab, showing the line feed alone is what blocks it. -/
theorem glob_star_linefeed_counterexample :
    globMatch canonAscii ['*'] ['a', '\n', 'b'] = false ∧
    globMatch canonAscii ['*'] ['a', 'b'] = true := by
  constructor
  · simp [globMatch, globToRegExp, patMatch, isLineTerminator]
  · simp [globMatch, globToRegExp, patMatch, isLineTerminator]

/-- C6 amended: the glob translation escapes all matcher-special characters
(every non-wildcard character is matched literally, up to the engine's
case canonicalization), maps star to any run of non-line-terminator
characters and question to exactly one non-line-terminator character, and
anchors case-insensitively at both ends against the base name only.  The
equivalence with the declarative semantics holds for every engine
canonicalization; the four example filters of the claim behave as stated
(they are ASCII, where the canonicalization is ASCII upper-casing). -/
theorem glob_translation_spec :
    (∀ (canon : Char → Char) (g s : List Char),
      globMatch canon g s = true ↔ GlobMatches canon g s) ∧
    (∀ (f : Matcher) (fp : String), keepFile (some f) fp = f (basename fp).toList) ∧
    globMatch canonAscii "*.txt".toList "a.txt".toList = true ∧
    globMatch canonAscii "*.txt".toList "a.txt.bak".toList = false ∧
    globMatch canonAscii "a?c.txt".toList "abc.txt".toList = true ∧
    globMatch canonAscii "a?c.txt".toList "ac.txt".toList = false := by
  refine ⟨fun canon g s => globMatch_iff canon g s, fun f fp => rfl, ?_, ?_, ?_, ?_⟩
  · simp [globMatch, globToRegExp, patMatch, isLineTerminator, canonAscii]
  · simp [globMatch, globToRegExp, patMatch, isLineTerminator, canonAscii]
  · simp [globMatch, globToRegExp, patMatch, isLineTerminator, canonAscii]
  · simp [globMatch, globToRegExp, patMatch, isLineTerminator, canonAscii]

theorem find?_filter_keep {α : Type} (q f : α → Bool) (l : List α)
    (h : ∀ a, q a = true → f a = true) :
    List.find? q (l.filter f) = List.find? q l := by
  induction l with
  | nil => rfl
  | cons a l ih =>
    by_cases hf : f a
    · rw [List.filter_cons_of_pos hf]
      by_cases hqa : q a
      · rw [List.find?_cons_of_pos _ hqa, List.find?_cons_of_pos _ hqa]
      · rw [List.find?_cons_of_neg _ (by simpa using hqa),
          List.find?_cons_of_neg _ (by simpa using hqa), ih]
    · have hqa : q a = false := by
        cases hq2 : q a
        · rfl
        · exact absurd (h a hq2) (by simpa using hf)
      rw [List.filter_cons_of_neg (by simpa using hf),
        List.find?_cons_of_neg _ (by simp [hqa]), ih]

theorem Fs.lookup_addDir (fs : Fs) (q x : FsPath) (hq : q ≠ []) :
    (fs.addDir q).lookup x = if x = q then some FsEntry.dir else fs.lookup x := by
  by_cases hxq : x = q
  · subst hxq
    rw [if_pos rfl]
    unfold Fs.lookup Fs.addDir
    rw [if_neg hq]
    rw [List.find?_cons_of_pos _ (by simp)]
    rfl
  · rw [if_neg hxq]
    unfold Fs.lookup Fs.addDir
    by_cases hx : x = []
    · rw [if_pos hx, if_pos hx]
    · rw [if_neg hx, if_neg hx]
      rw [List.find?_cons_of_neg _ (by simp; exact fun h => hxq h.symm)]

theorem Fs.lookup_setFile (fs : Fs) (p x : FsPath) (c : List Char) (hp : p ≠ []) :
    (fs.setFile p c).lookup x = if x = p then some (FsEntry.file c) else fs.lookup x := by
  by_cases hxp : x = p
  · subst hxp
    rw [if_pos rfl]
    unfold Fs.lookup Fs.setFile
    rw [if_neg hp]
    rw [List.find?_cons_of_pos _ (by simp)]
    rfl
  · rw [if_neg hxp]
    unfold Fs.lookup Fs.setFile
    by_cases hx : x = []
    · rw [if_pos hx, if_pos hx]
    · rw [if_neg hx, if_neg hx]
      rw [List.find?_cons_of_neg _ (by simp; exact fun h => hxp h.symm)]
      rw [find?_filter_keep _ _ _ (fun e he => by
        simp at he ⊢
        exact fun hep => hxp (he ▸ hep ▸ rfl))]

theorem mkdirGo_spec (rest : List String) :
    ∀ (pre : FsPath) (fs : Fs),
    fs.lookup pre = some FsEntry.dir →
    (∀ i, i ≤ rest.length → fs.isFile (pre ++ rest.take i) = false) →
    ∃ fs2, mkdirGo fs pre rest = .ok fs2 ∧
      (∀ i, i ≤ rest.length → fs2.lookup (pre ++ rest.take i) = some FsEntry.dir) ∧
      (∀ q, (∀ i, i ≤ rest.length → q ≠ pre ++ rest.take i) → fs2.lookup q = fs.lookup q) := by
  induction rest with
  | nil =>
    intro pre fs hpre _
    refine ⟨fs, rfl, ?_, fun q _ => rfl⟩
    intro i hi
    have h0 : i = 0 := Nat.le_zero.1 hi
    subst h0
    simpa using hpre
  | cons n rest ih =>
    intro pre fs hpre hfile
    have h1 : fs.isFile (pre ++ [n]) = false := by
      have := hfile 1 (by simp)
      simpa using this
    cases hlk : fs.lookup (pre ++ [n]) with
    | none =>
      have hq : (pre ++ [n]) ≠ [] := by simp
      have hl1 : (fs.addDir (pre ++ [n])).lookup (pre ++ [n]) = some FsEntry.dir := by
        rw [Fs.lookup_addDir _ _ _ hq, if_pos rfl]
      have hfile1 : ∀ i, i ≤ rest.length →
          (fs.addDir (pre ++ [n])).isFile ((pre ++ [n]) ++ rest.take i) = false := by
        intro i hi
        unfold Fs.isFile
        rw [Fs.lookup_addDir _ _ _ hq]
        by_cases he : (pre ++ [n]) ++ rest.take i = pre ++ [n]
        · rw [if_pos he]
        · rw [if_neg he]
          have h2 := hfile (i + 1) (by simpa using Nat.succ_le_succ hi)
          unfold Fs.isFile at h2
          have heq : pre ++ (n :: rest).take (i + 1) = (pre ++ [n]) ++ rest.take i := by
            simp [List.take_succ_cons]
          rw [heq] at h2
          exact h2
      obtain ⟨fs2, hrun, hdirs, hpres⟩ := ih (pre ++ [n]) (fs.addDir (pre ++ [n])) hl1 hfile1
      refine ⟨fs2, ?_, ?_, ?_⟩
      · simp only [mkdirGo, hlk]
        exact hrun
      · intro i hi
        match i with
        | 0 =>
          simp only [List.take_zero, List.append_nil]
          have hne : ∀ j, j ≤ rest.length → pre ≠ (pre ++ [n]) ++ rest.take j := by
            intro j hj h
            apply_fun List.length at h
            simp at h
          rw [hpres pre hne, Fs.lookup_addDir _ _ _ hq,
            if_neg (by intro h; apply_fun List.length at h; simp at h)]
          exact hpre
        | i + 1 =>
          have heq : pre ++ (n :: rest).take (i + 1) = (pre ++ [n]) ++ rest.take i := by
            simp [List.take_succ_cons]
          rw [heq]
          exact hdirs i (by simpa using Nat.le_of_succ_le_succ hi)
      · intro q hq2
        have hq3 : ∀ i, i ≤ rest.length → q ≠ (pre ++ [n]) ++ rest.take i := by
          intro i hi
          have h3 := hq2 (i + 1) (by simpa using Nat.succ_le_succ hi)
          have heq : pre ++ (n :: rest).take (i + 1) = (pre ++ [n]) ++ rest.take i := by
            simp [List.take_succ_cons]
          rw [heq] at h3
          exact h3
        have hne1 : q ≠ pre ++ [n] := by
          have h4 := hq2 1 (by simp)
          simpa using h4
        rw [hpres q hq3, Fs.lookup_addDir _ _ _ hq, if_neg hne1]
    | some e =>
      cases e with
      | file c =>
        exfalso
        unfold Fs.isFile at h1
        rw [hlk] at h1
        simp at h1
      | dir =>
        have hfile1 : ∀ i, i ≤ rest.length → fs.isFile ((pre ++ [n]) ++ rest.take i) = false := by
          intro i hi
          have h2 := hfile (i + 1) (by simpa using Nat.succ_le_succ hi)
          have heq : pre ++ (n :: rest).take (i + 1) = (pre ++ [n]) ++ rest.take i := by
            simp [List.take_succ_cons]
          rw [heq] at h2
          exact h2
        obtain ⟨fs2, hrun, hdirs, hpres⟩ := ih (pre ++ [n]) fs hlk hfile1
        refine ⟨fs2, ?_, ?_, ?_⟩
        · simp only [mkdirGo, hlk]
          exact hrun
        · intro i hi
          match i with
          | 0 =>
            simp only [List.take_zero, List.append_nil]
            have hne : ∀ j, j ≤ rest.length → pre ≠ (pre ++ [n]) ++ rest.take j := by
              intro j hj h
              apply_fun List.length at h
              simp at h
            rw [hpres pre hne]
            exact hpre
          | i + 1 =>
            have heq : pre ++ (n :: rest).take (i + 1) = (pre ++ [n]) ++ rest.take i := by
              simp [List.take_succ_cons]
            rw [heq]
            exact hdirs i (by simpa using Nat.le_of_succ_le_succ hi)
        · intro q hq2
          have hq3 : ∀ i, i ≤ rest.length → q ≠ (pre ++ [n]) ++ rest.take i := by
            intro i hi
            have h3 := hq2 (i + 1) (by simpa using Nat.succ_le_succ hi)
            have heq : pre ++ (n :: rest).take (i + 1) = (pre ++ [n]) ++ rest.take i := by
              simp [List.take_succ_cons]
            rw [heq] at h3
            exact h3
          exact hpres q hq3

/-- C7 counterexample: writing to a path below an existing regular file.
The claim promises that every write creates the missing parents and then
the file; here the recursive mkdir of the parent throws because segment a
exists as a file, the handler reports the error text, and no file appears
at the requested path. -/
theorem writeFile_parent_is_file_counterexample :
    writeFileTool ⟨[(["a"], FsEntry.file ['x'])]⟩ ["a", "b"] ['h', 'i'] =
      ("Error writing file: " ++ (enotdir "mkdir" ["a"]).message, ⟨[(["a"], FsEntry.file ['x'])]⟩) ∧
    (writeFileTool ⟨[(["a"], FsEntry.file ['x'])]⟩ ["a", "b"] ['h', 'i']).2.lookup ["a", "b"] = none := by
  constructor
  · decide
  · decide

/-- C7 amended: for every nonempty path whose ancestors are not existing
regular files and which is not itself an existing directory, write_file
creates every missing parent directory, creates or overwrites the file with
the given content, and reports the UTF-8 byte length of the content in its
success message; paths violating that proviso make the underlying calls
throw and the handler reports a write error instead. -/
theorem writeFile_creates_and_reports_bytes (fs : Fs) (p : FsPath) (c : List Char)
    (hp : p ≠ [])
    (hclear : ∀ i, i ≤ p.dropLast.length → fs.isFile (p.dropLast.take i) = false)
    (hnotdir : fs.isDirAt p = false) :
    (writeFileTool fs p c).1 =
      "Successfully wrote " ++ toString (utf8Len c) ++ " bytes to " ++ pathToString p ∧
    (writeFileTool fs p c).2.lookup p = some (FsEntry.file c) ∧
    (∀ i, i ≤ p.dropLast.length → (writeFileTool fs p c).2.lookup (p.dropLast.take i) = some FsEntry.dir) := by
  obtain ⟨fs1, hrun, hdirs, hpres⟩ := mkdirGo_spec p.dropLast [] fs
    (by simp [Fs.lookup])
    (by intro i hi; simpa using hclear i hi)
  have hmk : mkdirRecE fs p.dropLast = .ok fs1 := hrun
  have hplen : 1 ≤ p.length := by
    cases p with
    | nil => exact absurd rfl hp
    | cons a q => simp
  have hnotp : ∀ i, i ≤ p.dropLast.length → p ≠ [] ++ p.dropLast.take i := by
    intro i hi h
    apply_fun List.length at h
    simp only [List.nil_append, List.length_take, List.length_dropLast] at h
    omega
  have hlkp : fs1.lookup p = fs.lookup p := hpres p hnotp
  have hpar : fs1.lookup p.dropLast = some FsEntry.dir := by
    have h5 := hdirs p.dropLast.length (Nat.le_refl _)
    rw [List.nil_append, List.take_length] at h5
    exact h5
  have hw : writeFileSyncE fs1 p c = .ok (fs1.setFile p c) := by
    unfold writeFileSyncE
    rw [hlkp]
    cases hfsp : fs.lookup p with
    | none =>
      simp only []
      rw [if_pos hpar]
    | some e =>
      cases e with
      | file c0 => rfl
      | dir =>
        exfalso
        unfold Fs.isDirAt at hnotdir
        rw [hfsp] at hnotdir
        simp at hnotdir
  have hfinal : writeFileTool fs p c =
      ("Successfully wrote " ++ toString (utf8Len c) ++ " bytes to " ++ pathToString p,
       fs1.setFile p c) := by
    simp only [writeFileTool, hmk, hw]
  refine ⟨by rw [hfinal], ?_, ?_⟩
  · rw [hfinal]
    simp only []
    rw [Fs.lookup_setFile _ _ _ _ hp, if_pos rfl]
  · intro i hi
    rw [hfinal]
    simp only []
    have hne : p.dropLast.take i ≠ p := by
      intro h
      apply_fun List.length at h
      simp only [List.length_take, List.length_dropLast] at h
      omega
    rw [Fs.lookup_setFile _ _ _ _ hp, if_neg hne]
    have h6 := hdirs i hi
    simpa using h6

/-- Witness for the amended C7 theorem: writing a one-character two-byte
content below two missing directories creates both and reports two bytes. -/
theorem writeFile_creates_and_reports_bytes_witness :
    (writeFileTool ⟨[]⟩ ["d", "e", "f"] [Char.ofNat 233]).1 = "Successfully wrote 2 bytes to d/e/f" ∧
    (writeFileTool ⟨[]⟩ ["d", "e", "f"] [Char.ofNat 233]).2.lookup ["d", "e", "f"] =
      some (FsEntry.file [Char.ofNat 233]) ∧
    (writeFileTool ⟨[]⟩ ["d", "e", "f"] [Char.ofNat 233]).2.lookup ["d"] = some FsEntry.dir := by
  have h := writeFile_creates_and_reports_bytes ⟨[]⟩ ["d", "e", "f"] [Char.ofNat 233]
    (by decide) (by decide) (by decide)
  refine ⟨?_, h.2.1, ?_⟩
  · rw [h.1]
    decide
  · exact h.2.2 1 (by decide)

/-- C9: delete_file removes a regular file via unlink and reports the file
case; it removes a directory only when it has no children, reporting the
directory case; on a non-empty directory it fails, the message carries the
underlying ENOTEMPTY reason, and the filesystem (the directory with all its
contents) is returned unchanged; a missing path is reported as not found. -/
theorem deleteFile_cases (fs : Fs) (p : FsPath) :
    (∀ c, fs.lookup p = some (FsEntry.file c) →
      deleteFileTool fs p = ("Successfully deleted file: " ++ pathToString p, fs.remove p)) ∧
    (fs.lookup p = some FsEntry.dir → fs.childNames p = [] →
      deleteFileTool fs p = ("Successfully deleted directory: " ++ pathToString p, fs.remove p)) ∧
    (fs.lookup p = some FsEntry.dir → fs.childNames p ≠ [] →
      deleteFileTool fs p = ("Error deleting: " ++ (enotempty p).message, fs)) ∧
    (fs.lookup p = none →
      deleteFileTool fs p = ("Error: Path not found: " ++ pathToString p, fs)) := by
  refine ⟨?_, ?_, ?_, ?_⟩
  · intro c h
    simp only [deleteFileTool, statSyncE, unlinkSyncE, h]
  · intro h hempty
    simp only [deleteFileTool, statSyncE, rmdirSyncE, h]
    rw [if_pos hempty]
  · intro h hne
    simp only [deleteFileTool, statSyncE, rmdirSyncE, h]
    rw [if_neg hne]
    show (if (enotempty p).code = "ENOENT" then "Error: Path not found: " ++ pathToString p
        else "Error deleting: " ++ (enotempty p).message, fs) =
      ("Error deleting: " ++ (enotempty p).message, fs)
    rw [if_neg (show ¬ (enotempty p).code = "ENOENT" from
      fun hc => (by decide : ("ENOTEMPTY" : String) ≠ "ENOENT") hc)]
  · intro h
    simp only [deleteFileTool, statSyncE, h]
    rw [if_pos (show (enoent "stat" p).code = "ENOENT" from rfl)]

/-- Witness for the C9 theorem on a concrete filesystem holding a file f, a
non-empty directory d with child c, and an empty directory e; all four
branches are exercised, the missing path being g. -/
theorem deleteFile_cases_witness :
    deleteFileTool ⟨[(["f"], FsEntry.file ['x']), (["d"], FsEntry.dir),
        (["d", "c"], FsEntry.file ['y']), (["e"], FsEntry.dir)]⟩ ["f"] =
      ("Successfully deleted file: f",
       ⟨[(["d"], FsEntry.dir), (["d", "c"], FsEntry.file ['y']), (["e"], FsEntry.dir)]⟩) ∧
    deleteFileTool ⟨[(["f"], FsEntry.file ['x']), (["d"], FsEntry.dir),
        (["d", "c"], FsEntry.file ['y']), (["e"], FsEntry.dir)]⟩ ["e"] =
      ("Successfully deleted directory: e",
       ⟨[(["f"], FsEntry.file ['x']), (["d"], FsEntry.dir), (["d", "c"], FsEntry.file ['y'])]⟩) ∧
    deleteFileTool ⟨[(["f"], FsEntry.file ['x']), (["d"], FsEntry.dir),
        (["d", "c"], FsEntry.file ['y']), (["e"], FsEntry.dir)]⟩ ["d"] =
      ("Error deleting: " ++ (enotempty ["d"]).message,
       ⟨[(["f"], FsEntry.file ['x']), (["d"], FsEntry.dir),
         (["d", "c"], FsEntry.file ['y']), (["e"], FsEntry.dir)]⟩) ∧
    deleteFileTool ⟨[(["f"], FsEntry.file ['x']), (["d"], FsEntry.dir),
        (["d", "c"], FsEntry.file ['y']), (["e"], FsEntry.dir)]⟩ ["g"] =
      ("Error: Path not found: g",
       ⟨[(["f"], FsEntry.file ['x']), (["d"], FsEntry.dir),
         (["d", "c"], FsEntry.file ['y']), (["e"], FsEntry.dir)]⟩) := by
  refine ⟨?_, ?_, ?_, ?_⟩
  · exact ((deleteFile_cases ⟨[(["f"], FsEntry.file ['x']), (["d"], FsEntry.dir),
      (["d", "c"], FsEntry.file ['y']), (["e"], FsEntry.dir)]⟩ ["f"]).1 ['x'] (by decide)).trans
      (by decide)
  · exact (((deleteFile_cases ⟨[(["f"], FsEntry.file ['x']), (["d"], FsEntry.dir),
      (["d", "c"], FsEntry.file ['y']), (["e"], FsEntry.dir)]⟩ ["e"]).2.1 (by decide)
      (by decide)).trans (by decide))
  · exact (((deleteFile_cases ⟨[(["f"], FsEntry.file ['x']), (["d"], FsEntry.dir),
      (["d", "c"], FsEntry.file ['y']), (["e"], FsEntry.dir)]⟩ ["d"]).2.2.1 (by decide)
      (by decide)))
  · exact (((deleteFile_cases ⟨[(["f"], FsEntry.file ['x']), (["d"], FsEntry.dir),
      (["d", "c"], FsEntry.file ['y']), (["e"], FsEntry.dir)]⟩ ["g"]).2.2.2 (by decide)))

/-- C4 counterexample: in the minimal agent of src/agent.ts the read_file
handler has no try/catch, so reading a missing file is a thrown ENOENT
error escaping the handler and the dispatch, not a string result. -/
theorem agent_readFile_fault_propagates :
    agentExecute ⟨[]⟩ "read_file" (some "missing") = .error (enoent "open" ["missing"]) := rfl

/-- C4 amended: in the six-tool agent every tool invocation, failing ones
included, produces a string result (the dispatcher and every handler are
total into a string and a new world, the handlers mapping each thrown error
to text, as the read_file clause spells out); the minimal agent of
src/agent.ts does not have this property, its read_file faults escaping as
shown by the counterexample. -/
theorem executeTool_total_string :
    (∀ (w : World) (name : String) (a : ToolArgs), ∃ s w2, executeTool w name a = (s, w2)) ∧
    (∀ (fs : Fs) (p : FsPath) (e : JsErr), readFileSyncE fs p = .error e →
      readFileTool fs p =
        ((if e.code = "ENOENT" then "Error: File not found: " ++ pathToString p
          else "Error reading file: " ++ e.message), fs)) := by
  constructor
  · intro w name a
    exact ⟨(executeTool w name a).1, (executeTool w name a).2, rfl⟩
  · intro fs p e h
    simp only [readFileTool, h]

/-- Witness for the amended C4 theorem: an unknown tool name yields a string
result, and a read of a missing file yields the not-found text with the
filesystem untouched. -/
theorem executeTool_total_string_witness :
    (∃ s w2, executeTool wEmpty "nope" noArgs = (s, w2)) ∧
    readFileTool ⟨[]⟩ ["x"] = ("Error: File not found: x", ⟨[]⟩) := by
  constructor
  · exact executeTool_total_string.1 wEmpty "nope" noArgs
  · have h := executeTool_total_string.2 ⟨[]⟩ ["x"] (enoent "open" ["x"]) rfl
    rw [h]
    decide

theorem execCalls_length (tcs : List ToolCall) : ∀ w, (execCalls w tcs).1.length = tcs.length := by
  induction tcs with
  | nil => intro w; rfl
  | cons tc rest ih =>
    intro w
    simp only [execCalls, List.length_cons]
    rw [ih]

theorem execCalls_ids (tcs : List ToolCall) : ∀ w,
    List.Forall₂ (fun (tc : ToolCall) (msg : ChatMsg) => ∃ s, msg = ChatMsg.tool tc.id s)
      tcs (execCalls w tcs).1 := by
  induction tcs with
  | nil => intro w; exact List.Forall₂.nil
  | cons tc rest ih =>
    intro w
    simp only [execCalls]
    exact List.Forall₂.cons ⟨_, rfl⟩ (ih _)

/-- C5 counterexample: a model response that carries zero tool calls as a
present-but-empty list.  The controller checks only for the absence of the
field, so it appends the assistant message, appends zero results, and asks
the model again instead of terminating: with no further response available
the run does not terminate with the content printed. -/
theorem run_zero_toolcalls_does_not_terminate :
    (Response.mk (some "hi") (some [])).toolCalls = some [] ∧
    runLoop wEmpty [ChatMsg.user "q"] [⟨some "hi", some []⟩] = none := ⟨rfl, rfl⟩

/-- C5 amended: a response without a tool-call field terminates the run at
once, with the transcript unchanged and its content printed; a response
whose tool-call field is present with k calls (k possibly zero) appends the
assistant message followed by exactly k tool results, one per call with the
matching identifier in the order received, before the next model
invocation. -/
theorem run_turn_characterization (w : World) (msgs : List ChatMsg) (r : Response)
    (rest : List Response) :
    (r.toolCalls = none → runLoop w msgs (r :: rest) = some (msgs, w, r.content)) ∧
    (∀ tcs, r.toolCalls = some tcs →
      runLoop w msgs (r :: rest) =
        runLoop (execCalls w tcs).2
          (msgs ++ ChatMsg.assistant r.content (some tcs) :: (execCalls w tcs).1) rest ∧
      (execCalls w tcs).1.length = tcs.length ∧
      List.Forall₂ (fun (tc : ToolCall) (msg : ChatMsg) => ∃ s, msg = ChatMsg.tool tc.id s)
        tcs (execCalls w tcs).1) := by
  constructor
  · intro h
    simp only [runLoop, h]
  · intro tcs h
    refine ⟨?_, execCalls_length tcs w, execCalls_ids tcs w⟩
    simp only [runLoop, h]

/-- Witness for the amended C5 theorem: a content-only response ends the run
with its content, and a one-call turn produces exactly one tool result. -/
theorem run_turn_characterization_witness :
    runLoop wEmpty [ChatMsg.user "q"] [⟨some "done", none⟩] =
      some ([ChatMsg.user "q"], wEmpty, some "done") ∧
    (execCalls wEmpty [⟨"c1", "list_directory", noArgs⟩]).1.length = 1 := by
  constructor
  · exact (run_turn_characterization wEmpty [ChatMsg.user "q"] ⟨some "done", none⟩ []).1 rfl
  · exact ((run_turn_characterization wEmpty [ChatMsg.user "q"]
      ⟨some "done", some [⟨"c1", "list_directory", noArgs⟩]⟩ []).2
      [⟨"c1", "list_directory", noArgs⟩] rfl).2.1

/-- C8: when the host regex engine rejects the pattern, search returns the
descriptive compile error at once; the result is the same for every tree, so
no directory is walked and no file is read. -/
theorem search_invalid_regex_no_fs (e : String) (pRaw : String) (fileArg : Option String)
    (t t2 : List FsTree) :
    searchToolTop (Except.error e) pRaw fileArg t = "Invalid regex pattern: " ++ e ∧
    searchToolTop (Except.error e) pRaw fileArg t =
      searchToolTop (Except.error e) pRaw fileArg t2 := ⟨rfl, rfl⟩

/-- C10: an empty or whitespace-only path argument makes list_directory and
search behave exactly as if the current directory dot had been supplied. -/
theorem blank_path_defaults_to_cwd (fs : Fs) (pArg : String)
    (compiled : Except String Matcher) (fileArg : Option String) (t : List FsTree)
    (h : jsTrim pArg = "") :
    listDirectoryTool fs pArg = listDirectoryTool fs "." ∧
    searchToolTop compiled pArg fileArg t = searchToolTop compiled "." fileArg t := by
  constructor
  · by_cases hp : pArg = ""
    · rw [hp]
      rfl
    · unfold listDirectoryTool
      rw [if_neg hp, if_pos h]
      rfl
  · by_cases hp : pArg = ""
    · rw [hp]
      rfl
    · unfold searchToolTop
      rw [if_neg hp, if_pos h]
      rfl

/-- Witness for the C10 theorem at the two-space path on a concrete
filesystem and tree. -/
theorem blank_path_defaults_to_cwd_witness :
    listDirectoryTool ⟨[(["k"], FsEntry.file ['z'])]⟩ "  " =
      listDirectoryTool ⟨[(["k"], FsEntry.file ['z'])]⟩ "." ∧
    searchToolTop (Except.ok mAll) "  " none [FsTree.file "k" ['z']] =
      searchToolTop (Except.ok mAll) "." none [FsTree.file "k" ['z']] :=
  blank_path_defaults_to_cwd ⟨[(["k"], FsEntry.file ['z'])]⟩ "  " (Except.ok mAll) none
    [FsTree.file "k" ['z']] (by decide)

end Cody
